import Mathlib

/-!
Shallow embedding of `qhdopt/backend/cim_backend.py` (class `CIMBackend`).

Python floats are modelled as rationals.  The external collaborators — the
SimuQ/D-Wave compiler (`DWaveProvider.compile`), the CIM Ising solver and the
decoding helper `spin_to_bitstring` — are modelled as oracle parameters: the
values they may return are universally quantified inputs of the embedded
functions.  Wall-clock readings of `time.time()` are modelled as explicit
timestamp parameters, listed in the order the source consumes them.
-/

namespace QHDOPT

/-- State of a `CIMBackend` instance: the constructor parameters stored by
`__init__` (lines 19-46) together with the fields written by `compile`
(`self.h`, `self.J`, `self.penalty_coefficient`, `self.chain_strength`).
The SimuQ system builder `self.qs` only accumulates evolution terms through
`add_evolution`, so it is abstracted as the number of terms added; the
densified coupling matrix `self.J` is modelled as a function on indices. -/
structure CIMBackend where
  resolution : ℕ
  dimension : ℕ
  numQubits : ℕ
  shots : ℕ
  embedding_scheme : String
  anneal_schedule : List (ℚ × ℚ)
  penalty_coefficient : ℚ
  penalty_ratio : ℚ
  chain_strength_ratio : ℚ
  chain_strength : ℚ
  qs : ℕ
  h : List ℚ
  J : ℕ → ℕ → ℚ

/-- Execution-info record: the mutable dict passed to `compile` and `exec`,
mapping string keys to stored float values. -/
def InfoMap : Type := String → Option ℚ

/-- Model of the dict assignment `info[k] = v`. -/
def setKey (m : InfoMap) (k : String) (v : ℚ) : InfoMap :=
  fun q => if q = k then some v else m q

/-- Running maximum of absolute values: `foldMaxAbs a xs` is what folding
`max acc abs(y)` over `xs` from accumulator `a` produces. -/
def foldMaxAbs (a : ℚ) (xs : List ℚ) : ℚ :=
  xs.foldl (fun acc y => max acc |y|) a

/-- Model of `np.max(np.abs(xs))` (line 67): `none` on the empty list, where
NumPy raises, otherwise the maximum of the absolute values. -/
def npMaxAbs : List ℚ → Option ℚ
  | [] => none
  | x :: xs => some (foldMaxAbs (abs x) xs)

/-- Embedding of `CIMBackend.calc_penalty_coefficient_and_chain_strength`
(lines 48-74).  `refH` is the list `h` and `refJvals` the list `J.values()`
returned by the external `DWaveProvider.compile` call on the reference
system; both are oracle inputs, used only on the derived branch.  The
constant `1 / 20` is the literal `5e-2`. -/
def calc_penalty_coefficient_and_chain_strength (b : CIMBackend)
    (refH refJvals : List ℚ) : Option (ℚ × ℚ) :=
  if b.penalty_coefficient ≠ 0 then
    some (b.penalty_coefficient,
      max (1 / 20) (b.chain_strength_ratio * b.penalty_coefficient))
  else
    match npMaxAbs (refH ++ refJvals) with
    | none => none
    | some max_strength =>
        some ((if b.embedding_scheme = "unary"
                then b.penalty_ratio * max_strength else 0),
          max (1 / 20) (max 1 b.penalty_ratio * max_strength))

/-- Densification loop of `compile` (lines 93-95): starting from `np.zeros`,
each dict entry `((i, j), v)` performs the assignment `J_array[i, j] = v`,
later entries overwriting earlier ones exactly as the loop does. -/
def densifyJ (entries : List ((ℕ × ℕ) × ℚ)) : ℕ → ℕ → ℚ :=
  entries.foldl
    (fun A kv => fun i j => if i = kv.1.1 ∧ j = kv.1.2 then kv.2 else A i j)
    (fun _ _ => 0)

/-- The symmetrisation step `J_array = J_array + J_array.T` (line 96). -/
def symmetrizeJ (A : ℕ → ℕ → ℚ) : ℕ → ℕ → ℚ :=
  fun i j => A i j + A j i

/-- Embedding of `CIMBackend.compile` (lines 76-100).  `mainH` is the raw `h`
and `mainJ` the iteration-ordered `(key, value)` pairs of the sparse dict `J`
returned by the external compiler for the full system; `t0` and `t1` are the
two `time.time()` readings around the compile phase.  Returns the updated
instance state together with the updated info dict, or `none` when the
tuning-parameter resolution fails. -/
def compile (b : CIMBackend) (refH refJvals mainH : List ℚ)
    (mainJ : List ((ℕ × ℕ) × ℚ)) (info : InfoMap) (t0 t1 : ℚ) :
    Option (CIMBackend × InfoMap) :=
  match calc_penalty_coefficient_and_chain_strength b refH refJvals with
  | none => none
  | some (pc, cs) =>
      some ({ b with
                penalty_coefficient := pc
                chain_strength := cs
                qs := b.qs + 1
                h := mainH
                J := symmetrizeJ (densifyJ mainJ) },
        setKey info "compile_time" (t1 - t0))

/-- Embedding of `CIMBackend.exec` (lines 102-135).  `solver i` is the spin
configuration the i-th external `Ising(J, h).solve()` run yields; `decode` is
the external helper `spin_to_bitstring`; `t2` and `t3` time the run loop.
`verbose` only controls printing, and `compile_only` is accepted but never
read anywhere in the body — exactly as in the source, where the solve loop
runs unconditionally after compiling. -/
def exec (b : CIMBackend) (refH refJvals mainH : List ℚ)
    (mainJ : List ((ℕ × ℕ) × ℚ)) (solver : ℕ → List ℤ)
    (decode : List ℤ → List ℕ) (verbose : ℤ) (info : InfoMap)
    (t0 t1 t2 t3 : ℚ) (compile_only : Bool) :
    Option (CIMBackend × InfoMap × List (List ℕ)) :=
  match compile b refH refJvals mainH mainJ info t0 t1 with
  | none => none
  | some (b1, info1) =>
      some (b1, setKey info1 "backend_time" (t3 - t2),
        ((List.range b1.shots).map solver).map decode)

/-- Embedding of `CIMBackend.calc_h_and_J` (lines 137-157).  `exportH` and
`exportJ` are the raw `(h, J)` pair the fresh provider's compile call
returns; the function hands them back unchanged (no densification).  Tuning
parameters are recomputed into locals only; the sole instance field written
is the shared system builder `self.qs`. -/
def calc_h_and_J (b : CIMBackend) (refH refJvals exportH : List ℚ)
    (exportJ : List ((ℕ × ℕ) × ℚ)) :
    Option (CIMBackend × (List ℚ × List ((ℕ × ℕ) × ℚ))) :=
  match calc_penalty_coefficient_and_chain_strength b refH refJvals with
  | none => none
  | some _ => some ({ b with qs := b.qs + 1 }, (exportH, exportJ))

/-- Concrete backend instance with an explicitly configured non-zero penalty
coefficient (resolution 2, dimension 1, 3 shots, the constructor's default
ratios). -/
def bExplicit : CIMBackend :=
  { resolution := 2
    dimension := 1
    numQubits := 2
    shots := 3
    embedding_scheme := "unary"
    anneal_schedule := [(0, 0), (20, 1)]
    penalty_coefficient := 1
    penalty_ratio := 3 / 4
    chain_strength_ratio := 21 / 20
    chain_strength := 0
    qs := 0
    h := []
    J := fun _ _ => 0 }

/-- Concrete backend instance with penalty coefficient 0 and a non-"unary"
embedding scheme. -/
def bDerived : CIMBackend :=
  { bExplicit with penalty_coefficient := 0, embedding_scheme := "hamming" }

/-- Concrete backend instance with a negative configured penalty
coefficient. -/
def bNegative : CIMBackend :=
  { bExplicit with penalty_coefficient := -3 }

/-- Concrete backend instance with a non-zero penalty coefficient and a
non-"unary" embedding scheme. -/
def bNonUnary : CIMBackend :=
  { bExplicit with penalty_coefficient := 2, embedding_scheme := "hamming" }

/-- The empty execution-info record. -/
def emptyInfo : InfoMap := fun _ => none

/-- Concrete solver oracle: every run returns the spin configuration
`[1, -1]`. -/
def exSolver : ℕ → List ℤ := fun _ => [1, -1]

/-- Concrete decoding oracle standing in for `spin_to_bitstring`: spin `1`
becomes bit `1`, anything else bit `0`. -/
def exDecode : List ℤ → List ℕ :=
  fun s => s.map (fun z => if z = 1 then 1 else 0)

lemma le_foldMaxAbs (a : ℚ) (xs : List ℚ) : a ≤ foldMaxAbs a xs := by
  induction xs generalizing a with
  | nil => exact le_refl a
  | cons y ys ih =>
      exact (le_max_left a |y|).trans (ih (max a |y|))

lemma mem_le_foldMaxAbs (a : ℚ) (xs : List ℚ) :
    ∀ y ∈ xs, |y| ≤ foldMaxAbs a xs := by
  induction xs generalizing a with
  | nil => intro y hy; cases hy
  | cons z zs ih =>
      intro y hy
      rcases List.mem_cons.mp hy with h | h
      · subst h
        exact (le_max_right a |y|).trans (le_foldMaxAbs (max a |y|) zs)
      · exact ih (max a |z|) y h

lemma foldMaxAbs_attained (a : ℚ) (xs : List ℚ) :
    foldMaxAbs a xs = a ∨ ∃ y ∈ xs, foldMaxAbs a xs = |y| := by
  induction xs generalizing a with
  | nil => exact Or.inl rfl
  | cons z zs ih =>
      have hstep : foldMaxAbs a (z :: zs) = foldMaxAbs (max a |z|) zs := rfl
      rcases ih (max a |z|) with h | ⟨y, hy, hEq⟩
      · rcases max_choice a |z| with hm | hm
        · exact Or.inl (by rw [hstep, h, hm])
        · exact Or.inr ⟨z, List.mem_cons_self z zs, by rw [hstep, h, hm]⟩
      · exact Or.inr ⟨y, List.mem_cons_of_mem z hy, by rw [hstep, hEq]⟩

/-- Specification of `npMaxAbs`: on success it returns an upper bound of the
absolute values that is attained by some list element. -/
lemma npMaxAbs_spec (xs : List ℚ) (m : ℚ) (hm : npMaxAbs xs = some m) :
    (∀ y ∈ xs, |y| ≤ m) ∧ ∃ y ∈ xs, |y| = m := by
  cases xs with
  | nil => simp [npMaxAbs] at hm
  | cons x ys =>
      have hmx : m = foldMaxAbs |x| ys := by
        simpa [npMaxAbs] using hm.symm
      constructor
      · intro y hy
        rcases List.mem_cons.mp hy with h | h
        · subst h; rw [hmx]; exact le_foldMaxAbs |y| ys
        · rw [hmx]; exact mem_le_foldMaxAbs |x| ys y h
      · rcases foldMaxAbs_attained |x| ys with h | ⟨y, hy, hEq⟩
        · exact ⟨x, List.mem_cons_self x ys, by rw [hmx, h]⟩
        · exact ⟨y, List.mem_cons_of_mem x hy, by rw [hmx, hEq]⟩

/-- C2: with a non-zero configured penalty coefficient, the tuning resolver
returns the pair `(penalty_coefficient, max(0.05, chain_strength_ratio *
penalty_coefficient))` for every possible reference-compiler output — a
deterministic function of the configured parameters, so no external compile
is consulted. -/
theorem calc_explicit_penalty_branch (b : CIMBackend) (refH refJvals : List ℚ)
    (hne : b.penalty_coefficient ≠ 0) :
    calc_penalty_coefficient_and_chain_strength b refH refJvals =
      some (b.penalty_coefficient,
        max (1 / 20) (b.chain_strength_ratio * b.penalty_coefficient)) := by
  simp [calc_penalty_coefficient_and_chain_strength, hne]

/-- Witness for C2 at a concrete instance. -/
theorem calc_explicit_penalty_branch_witness :
    bExplicit.penalty_coefficient ≠ 0 ∧
      calc_penalty_coefficient_and_chain_strength bExplicit [] [] =
        some (bExplicit.penalty_coefficient,
          max (1 / 20)
            (bExplicit.chain_strength_ratio * bExplicit.penalty_coefficient)) :=
  ⟨by decide, calc_explicit_penalty_branch bExplicit [] [] (by decide)⟩

/-- C3: with configured penalty coefficient 0 and an embedding scheme other
than "unary", the resolved penalty coefficient is 0 whatever reference
magnitudes the external compiler returns. -/
theorem calc_nonunary_penalty_zero (b : CIMBackend) (refH refJvals : List ℚ)
    (pc cs : ℚ) (h0 : b.penalty_coefficient = 0)
    (hemb : b.embedding_scheme ≠ "unary")
    (hc : calc_penalty_coefficient_and_chain_strength b refH refJvals =
      some (pc, cs)) : pc = 0 := by
  unfold calc_penalty_coefficient_and_chain_strength at hc
  rw [h0] at hc
  simp only [ne_eq, not_true_eq_false, if_false] at hc
  cases hnp : npMaxAbs (refH ++ refJvals) with
  | none => rw [hnp] at hc; cases hc
  | some m =>
      rw [hnp] at hc
      simp only [hemb, if_false, Option.some.injEq, Prod.mk.injEq] at hc
      exact hc.1.symm

/-- Witness for C3 at a concrete instance. -/
theorem calc_nonunary_penalty_zero_witness :
    bDerived.penalty_coefficient = 0 ∧ bDerived.embedding_scheme ≠ "unary" ∧
      calc_penalty_coefficient_and_chain_strength bDerived [2] [] =
        some (0, 2) ∧
      (0 : ℚ) = 0 :=
  ⟨by decide, by decide,
    by
      have hs : ("hamming" : String) ≠ "unary" := by decide
      norm_num [calc_penalty_coefficient_and_chain_strength, bDerived,
        bExplicit, npMaxAbs, foldMaxAbs, max_def, hs],
    calc_nonunary_penalty_zero bDerived [2] [] 0 2 (by decide) (by decide)
      (by
        have hs : ("hamming" : String) ≠ "unary" := by decide
        norm_num [calc_penalty_coefficient_and_chain_strength, bDerived,
          bExplicit, npMaxAbs, foldMaxAbs, max_def, hs])⟩

/-- C4: with configured penalty coefficient 0, the resolved chain strength is
`max(0.05, max(1, penalty_ratio) * M)` where `M` is the maximum absolute
value over all reference `h` entries and `J` values returned by the external
compiler. -/
theorem calc_derived_chain_strength (b : CIMBackend) (refH refJvals : List ℚ)
    (pc cs : ℚ) (h0 : b.penalty_coefficient = 0)
    (hc : calc_penalty_coefficient_and_chain_strength b refH refJvals =
      some (pc, cs)) :
    ∃ m : ℚ, (∀ y ∈ refH ++ refJvals, |y| ≤ m) ∧
      (∃ y ∈ refH ++ refJvals, |y| = m) ∧
      cs = max (1 / 20) (max 1 b.penalty_ratio * m) := by
  unfold calc_penalty_coefficient_and_chain_strength at hc
  rw [h0] at hc
  simp only [ne_eq, not_true_eq_false, if_false] at hc
  cases hnp : npMaxAbs (refH ++ refJvals) with
  | none => rw [hnp] at hc; cases hc
  | some m =>
      rw [hnp] at hc
      simp only [Option.some.injEq, Prod.mk.injEq] at hc
      rcases npMaxAbs_spec (refH ++ refJvals) m hnp with ⟨hub, hatt⟩
      exact ⟨m, hub, hatt, hc.2.symm⟩

/-- Witness for C4 at a concrete instance. -/
theorem calc_derived_chain_strength_witness :
    bDerived.penalty_coefficient = 0 ∧
      calc_penalty_coefficient_and_chain_strength bDerived [2] [] =
        some (0, 2) ∧
      ∃ m : ℚ, (∀ y ∈ ([2] ++ [] : List ℚ), |y| ≤ m) ∧
        (∃ y ∈ ([2] ++ [] : List ℚ), |y| = m) ∧
        (2 : ℚ) = max (1 / 20) (max 1 bDerived.penalty_ratio * m) :=
  ⟨by decide,
    by
      have hs : ("hamming" : String) ≠ "unary" := by decide
      norm_num [calc_penalty_coefficient_and_chain_strength, bDerived,
        bExplicit, npMaxAbs, foldMaxAbs, max_def, hs],
    calc_derived_chain_strength bDerived [2] [] 0 2 (by decide)
      (by
        have hs : ("hamming" : String) ≠ "unary" := by decide
        norm_num [calc_penalty_coefficient_and_chain_strength, bDerived,
          bExplicit, npMaxAbs, foldMaxAbs, max_def, hs])⟩

/-- C9: the chain strength produced by the tuning resolver is at least 0.05
on both branches, also for negative configured penalty coefficients and
all-zero reference magnitudes. -/
theorem chain_strength_floor (b : CIMBackend) (refH refJvals : List ℚ)
    (pc cs : ℚ)
    (hc : calc_penalty_coefficient_and_chain_strength b refH refJvals =
      some (pc, cs)) : 1 / 20 ≤ cs := by
  unfold calc_penalty_coefficient_and_chain_strength at hc
  rcases eq_or_ne b.penalty_coefficient 0 with h0 | hne
  · rw [h0] at hc
    simp only [ne_eq, not_true_eq_false, if_false] at hc
    cases hnp : npMaxAbs (refH ++ refJvals) with
    | none => rw [hnp] at hc; cases hc
    | some m =>
        rw [hnp] at hc
        simp only [Option.some.injEq, Prod.mk.injEq] at hc
        rw [← hc.2]
        exact le_max_left _ _
  · rw [if_pos hne] at hc
    simp only [Option.some.injEq, Prod.mk.injEq] at hc
    rw [← hc.2]
    exact le_max_left _ _

/-- Witness for C9 at a concrete instance with a negative configured penalty
coefficient, where the floor is what keeps the chain strength at 0.05. -/
theorem chain_strength_floor_witness :
    calc_penalty_coefficient_and_chain_strength bNegative [] [] =
        some (-3, 1 / 20) ∧
      (1 : ℚ) / 20 ≤ 1 / 20 :=
  ⟨by norm_num [calc_penalty_coefficient_and_chain_strength, bNegative,
      bExplicit, max_def],
    chain_strength_floor bNegative [] [] (-3) (1 / 20)
      (by norm_num [calc_penalty_coefficient_and_chain_strength, bNegative,
        bExplicit, max_def])⟩

/-- C10: a non-zero configured penalty coefficient is returned unchanged as
the resolved penalty coefficient, whatever the embedding scheme; the
"0 for non-unary embeddings" rule only applies on the derived branch. -/
theorem explicit_penalty_any_embedding (b : CIMBackend)
    (refH refJvals : List ℚ) (pc cs : ℚ)
    (hne : b.penalty_coefficient ≠ 0)
    (hc : calc_penalty_coefficient_and_chain_strength b refH refJvals =
      some (pc, cs)) : pc = b.penalty_coefficient := by
  unfold calc_penalty_coefficient_and_chain_strength at hc
  rw [if_pos hne] at hc
  simp only [Option.some.injEq, Prod.mk.injEq] at hc
  exact hc.1.symm

/-- Witness for C10 at a concrete non-"unary" instance with penalty
coefficient 2. -/
theorem explicit_penalty_any_embedding_witness :
    bNonUnary.penalty_coefficient ≠ 0 ∧
      calc_penalty_coefficient_and_chain_strength bNonUnary [] [] =
        some (2, 21 / 10) ∧
      (2 : ℚ) = bNonUnary.penalty_coefficient :=
  ⟨by decide,
    by norm_num [calc_penalty_coefficient_and_chain_strength, bNonUnary,
      bExplicit, max_def],
    explicit_penalty_any_embedding bNonUnary [] [] 2 (21 / 10) (by decide)
      (by norm_num [calc_penalty_coefficient_and_chain_strength, bNonUnary,
        bExplicit, max_def])⟩

/-- C5: after every compile call, whatever sparse dict the external compiler
returned, the densified coupling matrix stored on the instance is symmetric
in its two indices. -/
theorem compile_J_symmetric (b : CIMBackend) (refH refJvals mainH : List ℚ)
    (mainJ : List ((ℕ × ℕ) × ℚ)) (info : InfoMap) (t0 t1 : ℚ) (i j : ℕ) :
    (compile b refH refJvals mainH mainJ info t0 t1).map
        (fun out => out.1.J i j) =
      (compile b refH refJvals mainH mainJ info t0 t1).map
        (fun out => out.1.J j i) := by
  unfold compile
  cases calc_penalty_coefficient_and_chain_strength b refH refJvals with
  | none => rfl
  | some pcs =>
      cases pcs with
      | mk pc cs => simp [symmetrizeJ, add_comm]

/-- C1: the source's `exec` never reads its `compile_only` parameter.  At a
concrete instance with `shots = 3` and `compile_only = true`, the embedded
`exec` still runs the solver loop (returning 3 decoded samples) and still
writes `backend_time` into the info record, contradicting both the claim and
the method's own docstring. -/
theorem exec_compile_only_ignored :
    (exec bExplicit [] [] [1] [((0, 1), 1)] exSolver exDecode 0 emptyInfo
        0 0 0 1 true).map
        (fun out => (out.2.1 "backend_time", out.2.2.length)) =
      some (some 1, 3) := by
  norm_num [exec, compile, calc_penalty_coefficient_and_chain_strength,
    bExplicit, setKey, exSolver, exDecode, emptyInfo]

/-- C6: a full execute returns exactly `shots` bitstrings, the i-th being the
decoding of the spin configuration produced by the i-th solver run, in run
order. -/
theorem exec_shots_samples (b : CIMBackend) (refH refJvals mainH : List ℚ)
    (mainJ : List ((ℕ × ℕ) × ℚ)) (solver : ℕ → List ℤ)
    (decode : List ℤ → List ℕ) (verbose : ℤ) (info : InfoMap)
    (t0 t1 t2 t3 : ℚ) (samples : List (List ℕ))
    (hs : (exec b refH refJvals mainH mainJ solver decode verbose info
        t0 t1 t2 t3 false).map (fun out => out.2.2) = some samples) :
    samples.length = b.shots ∧
      ∀ i, (hi : i < samples.length) →
        samples.get ⟨i, hi⟩ = decode (solver i) := by
  unfold exec compile at hs
  cases hpcs : calc_penalty_coefficient_and_chain_strength b refH refJvals with
  | none => rw [hpcs] at hs; cases hs
  | some pcs =>
      cases pcs with
      | mk pc cs =>
          rw [hpcs] at hs
          simp only [Option.map_some', Option.some.injEq] at hs
          subst hs
          constructor
          · simp
          · intro i hi
            simp [List.get_eq_getElem]

/-- Witness for C6 at a concrete instance with 3 shots. -/
theorem exec_shots_samples_witness :
    ((exec bExplicit [] [] [1] [((0, 1), 1)] exSolver exDecode 0 emptyInfo
        0 0 0 1 false).map (fun out => out.2.2) =
      some [[1, 0], [1, 0], [1, 0]]) ∧
      ([[1, 0], [1, 0], [1, 0]] : List (List ℕ)).length = bExplicit.shots ∧
      ∀ i, (hi : i < ([[1, 0], [1, 0], [1, 0]] : List (List ℕ)).length) →
        ([[1, 0], [1, 0], [1, 0]] : List (List ℕ)).get ⟨i, hi⟩ =
          exDecode (exSolver i) :=
  ⟨by decide,
    exec_shots_samples bExplicit [] [] [1] [((0, 1), 1)] exSolver exDecode 0
      emptyInfo 0 0 0 1 [[1, 0], [1, 0], [1, 0]] (by decide)⟩

/-- C7: a full (non-compile-only) execute writes exactly the keys
`compile_time` and `backend_time` into the execution-info record — both
non-negative whenever the wall clock is monotone — and every other key keeps
its previous value. -/
theorem exec_info_frame (b : CIMBackend) (refH refJvals mainH : List ℚ)
    (mainJ : List ((ℕ × ℕ) × ℚ)) (solver : ℕ → List ℤ)
    (decode : List ℤ → List ℕ) (verbose : ℤ) (info : InfoMap)
    (t0 t1 t2 t3 : ℚ) (k : String)
    (hcalc :
      (calc_penalty_coefficient_and_chain_strength b refH refJvals).isSome)
    (h01 : t0 ≤ t1) (h23 : t2 ≤ t3)
    (hk1 : k ≠ "compile_time") (hk2 : k ≠ "backend_time") :
    ((exec b refH refJvals mainH mainJ solver decode verbose info t0 t1 t2 t3
        false).map (fun out => out.2.1 "compile_time") =
      some (some (t1 - t0))) ∧
    ((exec b refH refJvals mainH mainJ solver decode verbose info t0 t1 t2 t3
        false).map (fun out => out.2.1 "backend_time") =
      some (some (t3 - t2))) ∧
    0 ≤ t1 - t0 ∧ 0 ≤ t3 - t2 ∧
    ((exec b refH refJvals mainH mainJ solver decode verbose info t0 t1 t2 t3
        false).map (fun out => out.2.1 k) = some (info k)) := by
  rcases Option.isSome_iff_exists.mp hcalc with ⟨pcs, hpcs⟩
  cases pcs with
  | mk pc cs =>
      unfold exec compile
      rw [hpcs]
      have hct : ("compile_time" : String) ≠ "backend_time" := by decide
      refine ⟨?_, ?_, sub_nonneg.mpr h01, sub_nonneg.mpr h23, ?_⟩
      · simp [setKey, hct]
      · simp [setKey]
      · simp [setKey, hk1, hk2]

/-- Witness for C7 at a concrete instance, observed at the unrelated key
"other". -/
theorem exec_info_frame_witness :
    (calc_penalty_coefficient_and_chain_strength bExplicit [] []).isSome ∧
      (0 : ℚ) ≤ 0 ∧ (0 : ℚ) ≤ 1 ∧
      ("other" : String) ≠ "compile_time" ∧
      ("other" : String) ≠ "backend_time" ∧
      (((exec bExplicit [] [] [1] [((0, 1), 1)] exSolver exDecode 0 emptyInfo
          0 0 0 1 false).map (fun out => out.2.1 "compile_time") =
        some (some (0 - 0))) ∧
      ((exec bExplicit [] [] [1] [((0, 1), 1)] exSolver exDecode 0 emptyInfo
          0 0 0 1 false).map (fun out => out.2.1 "backend_time") =
        some (some (1 - 0))) ∧
      (0 : ℚ) ≤ 0 - 0 ∧ (0 : ℚ) ≤ 1 - 0 ∧
      ((exec bExplicit [] [] [1] [((0, 1), 1)] exSolver exDecode 0 emptyInfo
          0 0 0 1 false).map (fun out => out.2.1 "other") =
        some (emptyInfo "other"))) :=
  ⟨by decide, by norm_num, by norm_num, by decide, by decide,
    exec_info_frame bExplicit [] [] [1] [((0, 1), 1)] exSolver exDecode 0
      emptyInfo 0 0 0 1 "other" (by decide) (by norm_num) (by norm_num)
      (by decide) (by decide)⟩

/-- C8: the debug export `calc_h_and_J` recomputes tuning parameters into
locals and recompiles on a fresh provider, leaving the cached compiled
program (`self.h`, `self.J`) and the stored tuning parameters
(`self.penalty_coefficient`, `self.chain_strength`) — and every other stored
field except the shared system builder — unchanged, and it returns the raw
non-densified pair exactly as the compiler produced it. -/
theorem calc_h_and_J_frame (b : CIMBackend) (refH refJvals exportH : List ℚ)
    (exportJ : List ((ℕ × ℕ) × ℚ)) (i j : ℕ)
    (hcalc :
      (calc_penalty_coefficient_and_chain_strength b refH refJvals).isSome) :
    ((calc_h_and_J b refH refJvals exportH exportJ).map
        (fun out => (out.1.h, out.1.penalty_coefficient, out.1.chain_strength,
          out.1.shots, out.1.embedding_scheme, out.2)) =
      some (b.h, b.penalty_coefficient, b.chain_strength, b.shots,
        b.embedding_scheme, (exportH, exportJ))) ∧
    ((calc_h_and_J b refH refJvals exportH exportJ).map
        (fun out => out.1.J i j) = some (b.J i j)) := by
  rcases Option.isSome_iff_exists.mp hcalc with ⟨pcs, hpcs⟩
  unfold calc_h_and_J
  rw [hpcs]
  exact ⟨rfl, rfl⟩

/-- Witness for C8 at a concrete instance, observed at matrix index (0, 0). -/
theorem calc_h_and_J_frame_witness :
    (calc_penalty_coefficient_and_chain_strength bExplicit [] []).isSome ∧
      (((calc_h_and_J bExplicit [] [] [3] [((0, 1), 4)]).map
          (fun out => (out.1.h, out.1.penalty_coefficient,
            out.1.chain_strength, out.1.shots, out.1.embedding_scheme,
            out.2)) =
        some (bExplicit.h, bExplicit.penalty_coefficient,
          bExplicit.chain_strength, bExplicit.shots,
          bExplicit.embedding_scheme, ([3], [((0, 1), 4)]))) ∧
      ((calc_h_and_J bExplicit [] [] [3] [((0, 1), 4)]).map
          (fun out => out.1.J 0 0) = some (bExplicit.J 0 0))) :=
  ⟨by decide,
    calc_h_and_J_frame bExplicit [] [] [3] [((0, 1), 4)] 0 0 (by decide)⟩

end QHDOPT
